import Mathlib

/-!
# Verification of the pointing-poker room session engine

This file gives a shallow embedding of the room/user/vote state machine of
the pointing-poker API (Rust sources under `src/`) and proves or refutes the
frozen specification claims about it.

The SQLite store is modelled as three association-list tables mirroring the
schema created in `db.rs` (`create_schema`): `rooms (id, name, state,
owner_id)`, `users (id, name, is_observer, room_id)` and `votes (user_id,
room_id, vote)` with `PRAGMA foreign_keys = ON` cascade semantics.  Each
gateway function of `db.rs` and each request handler of `routes/room.rs` /
`routes/vote.rs` is translated into a pure Lean function; stateful code
passes the database explicitly and returns the (possibly mutated) store next
to an `Except` result, so that "the state is unchanged on error" is a
provable fact rather than a typing artefact.  The 128-bit random identifiers
are opaque tokens; they are modelled as `Nat` and identifier generation
(`Uuid::new_v4`) becomes an explicit parameter of the operations that create
records.  SQL `SELECT` result order is modelled as table (insertion) order.
-/

namespace PointingPoker

/-- Opaque user identifier (`UserId(Uuid)` in `models/user.rs`). -/
abbrev UserId := Nat

/-- Opaque room identifier (`RoomId(Uuid)` in `models/room.rs`). -/
abbrev RoomId := Nat

/-- `Vote` enumeration from `models/vote.rs`. -/
inductive Vote where
  | zero
  | one
  | two
  | three
  | five
  | eight
  | thirteen
  | twentyOne
  | questionMark
  | coffee
  | hidden
deriving DecidableEq, Repr

/-- `Vote::value` from `models/vote.rs`: the canonical display/storage string
of a token; the internal `Hidden` sentinel has none. -/
def Vote.value : Vote → Option String
  | .zero => some "0"
  | .one => some "1"
  | .two => some "2"
  | .three => some "3"
  | .five => some "5"
  | .eight => some "8"
  | .thirteen => some "13"
  | .twentyOne => some "21"
  | .questionMark => some "?"
  | .coffee => some "coffee"
  | .hidden => none

/-- ASCII case folding of one character.  `Vote::from_string` lowercases its
input with Rust's `str::to_lowercase`; on every character that can occur in
a vote token (ASCII letters, digits, `?`) that agrees with ASCII folding,
which is what we model. -/
def toLowerChar (c : Char) : Char :=
  if 'A' ≤ c ∧ c ≤ 'Z' then Char.ofNat (c.toNat + 32) else c

/-- ASCII lowercasing of a string (model of `str::to_lowercase`). -/
def toLowerString (s : String) : String :=
  String.mk (s.data.map toLowerChar)

/-- `Vote::from_string` from `models/vote.rs`: parse a vote token,
case-insensitively; unknown tokens produce an error string. -/
def voteFromString (value : String) : Except String Vote :=
  match toLowerString value with
  | "0" => .ok .zero
  | "1" => .ok .one
  | "2" => .ok .two
  | "3" => .ok .three
  | "5" => .ok .five
  | "8" => .ok .eight
  | "13" => .ok .thirteen
  | "21" => .ok .twentyOne
  | "?" => .ok .questionMark
  | "coffee" => .ok .coffee
  | _ => .error ("Invalid vote value: " ++ value)

/-- `RoomState` from `models/room.rs`. -/
inductive RoomState where
  | voting
  | revealed
deriving DecidableEq, Repr

/-- `User` record from `models/user.rs` (`id`, `name`, `is_observer`). -/
structure UserRec where
  id : UserId
  name : String
  is_observer : Bool
deriving DecidableEq, Repr

/-- `AppError` taxonomy from `error.rs`. -/
inductive AppError where
  | notFound (msg : String)
  | badRequest (msg : String)
  | forbidden (msg : String)
  | serverStartupError (msg : String)
  | databaseError (msg : String)
deriving DecidableEq, Repr

/-- A row of the `rooms` table (`id` is the association-list key). -/
structure RoomRow where
  name : String
  state : RoomState
  owner_id : Option UserId
deriving DecidableEq, Repr

/-- A row of the `users` table (`id` is the association-list key). -/
structure UserRow where
  name : String
  is_observer : Bool
  room_id : RoomId
deriving DecidableEq, Repr

/-- A row of the `votes` table (`user_id` is the association-list key;
the vote is stored as its canonical token string, as in the schema). -/
structure VoteRow where
  room_id : RoomId
  vote : String
deriving DecidableEq, Repr

/-- The persistent store: the three tables of `create_schema` in `db.rs`.
Lists are kept in insertion order, modelling SQL result order. -/
structure DB where
  rooms : List (RoomId × RoomRow)
  users : List (UserId × UserRow)
  votes : List (UserId × VoteRow)
deriving DecidableEq, Repr

/-- Primary-key lookup in a table: the first row with the given key. -/
def alookup {α : Type} : List (Nat × α) → Nat → Option α
  | [], _ => none
  | (k, v) :: rest, key => if k = key then some v else alookup rest key

/-- `UPDATE <table> SET ... WHERE <key column> = k`: rewrite the value of
every row keyed `k` with `f`. -/
def updateKey {α : Type} (l : List (Nat × α)) (k : Nat) (f : α → α) : List (Nat × α) :=
  l.map (fun p => if p.1 == k then (p.1, f p.2) else p)

/-- `DELETE FROM <table> WHERE <key column> = k`. -/
def eraseKey {α : Type} (l : List (Nat × α)) (k : Nat) : List (Nat × α) :=
  l.filter (fun p => !(p.1 == k))

/-- The assembled `Room` aggregate from `models/room.rs`: metadata plus the
user map and vote map of the room (`HashMap`s in Rust, association lists
here). -/
structure Room where
  id : RoomId
  name : String
  state : RoomState
  users : List (UserId × UserRec)
  votes : List (UserId × Vote)
  owner_id : Option UserId
deriving DecidableEq, Repr

/-- Rows of the `users` table belonging to a room
(`SELECT ... FROM users WHERE room_id = ?`). -/
def usersRowsFor (db : DB) (rid : RoomId) : List (UserId × UserRow) :=
  db.users.filter (fun p => p.2.room_id == rid)

/-- `Database::get_users_for_room` from `db.rs`: the room's user map. -/
def getUsersForRoom (db : DB) (rid : RoomId) : List (UserId × UserRec) :=
  (usersRowsFor db rid).map
    (fun p => (p.1, { id := p.1, name := p.2.name, is_observer := p.2.is_observer }))

/-- Rows of the `votes` table belonging to a room
(`SELECT ... FROM votes WHERE room_id = ?`). -/
def votesRowsFor (db : DB) (rid : RoomId) : List (UserId × VoteRow) :=
  db.votes.filter (fun p => p.2.room_id == rid)

/-- Parse the stored token string of each vote row
(`Vote::from_string` applied per row in `get_votes_for_room`). -/
def parseVoteRows : List (UserId × VoteRow) → Except AppError (List (UserId × Vote))
  | [] => .ok []
  | (u, vr) :: rest =>
    match voteFromString vr.vote with
    | .error e => .error (.databaseError e)
    | .ok v =>
      match parseVoteRows rest with
      | .error e => .error e
      | .ok rest' => .ok ((u, v) :: rest')

/-- `Database::get_votes_for_room` from `db.rs`: the room's vote map;
fails with a database error if a stored string does not parse. -/
def getVotesForRoom (db : DB) (rid : RoomId) : Except AppError (List (UserId × Vote)) :=
  parseVoteRows (votesRowsFor db rid)

/-- `Database::get_room` from `db.rs`: assemble the room aggregate, or
`none` if the room row is absent. -/
def getRoom (db : DB) (rid : RoomId) : Except AppError (Option Room) :=
  match alookup db.rooms rid with
  | none => .ok none
  | some row =>
    match getVotesForRoom db rid with
    | .error e => .error e
    | .ok votes =>
      .ok (some { id := rid, name := row.name, state := row.state,
                  users := getUsersForRoom db rid, votes := votes,
                  owner_id := row.owner_id })

/-- `Database::count_users_in_room` from `db.rs`
(`SELECT COUNT(*) FROM users WHERE room_id = ?`). -/
def countUsersInRoom (db : DB) (rid : RoomId) : Nat :=
  (usersRowsFor db rid).length

/-- `Database::update_room_state` from `db.rs`: targeted field update. -/
def updateRoomState (db : DB) (rid : RoomId) (st : RoomState) : DB :=
  { db with rooms := updateKey db.rooms rid (fun r => { r with state := st }) }

/-- `Database::update_room_owner` from `db.rs`: targeted field update. -/
def updateRoomOwner (db : DB) (rid : RoomId) (o : Option UserId) : DB :=
  { db with rooms := updateKey db.rooms rid (fun r => { r with owner_id := o }) }

/-- `Database::delete_room` from `db.rs`: `DELETE FROM rooms WHERE id = ?`
with `ON DELETE CASCADE` removing the room's users, and the votes of the
room or of any removed user.  Returns whether a row existed. -/
def deleteRoom (db : DB) (rid : RoomId) : Bool × DB :=
  let dead := (usersRowsFor db rid).map (fun p => p.1)
  ((alookup db.rooms rid).isSome,
   { rooms := eraseKey db.rooms rid,
     users := db.users.filter (fun p => !(p.2.room_id == rid)),
     votes := db.votes.filter
       (fun p => !(p.2.room_id == rid) && !(dead.contains p.1)) })

/-- `Database::add_user` from `db.rs`: `INSERT INTO users ...`; the primary
key and the `room_id` foreign key make the insert fail (an sqlx error
surfaced as a database error) on a duplicate user id or an absent room. -/
def addUser (db : DB) (u : UserRec) (rid : RoomId) : Except AppError Unit × DB :=
  if (alookup db.users u.id).isSome then
    (.error (.databaseError "UNIQUE constraint failed: users.id"), db)
  else if (alookup db.rooms rid).isNone then
    (.error (.databaseError "FOREIGN KEY constraint failed"), db)
  else
    (.ok (), { db with users :=
      db.users ++ [(u.id, { name := u.name, is_observer := u.is_observer, room_id := rid })] })

/-- `Database::remove_vote` from `db.rs`: `DELETE FROM votes WHERE user_id = ?`. -/
def removeVote (db : DB) (uid : UserId) : DB :=
  { db with votes := eraseKey db.votes uid }

/-- `Database::remove_user` from `db.rs`: read the user row, delete it
(the `votes.user_id` cascade and the explicit `remove_vote` call both
delete the user's vote row), and return the pre-delete record with the
user's room. -/
def removeUser (db : DB) (uid : UserId) : Option (UserRec × RoomId) × DB :=
  match alookup db.users uid with
  | none => (none, db)
  | some ur =>
    (some ({ id := uid, name := ur.name, is_observer := ur.is_observer }, ur.room_id),
     removeVote { db with users := eraseKey db.users uid } uid)

/-- `Database::add_vote` from `db.rs`: require the room to exist, reject the
valueless `Hidden` sentinel, then upsert with
`ON CONFLICT(user_id) DO UPDATE SET vote = excluded.vote` — on conflict only
the token string changes (the stored `room_id` is kept); a fresh insert
requires the user to exist (`votes.user_id` foreign key). -/
def addVote (db : DB) (rid : RoomId) (uid : UserId) (v : Vote) :
    Except AppError Unit × DB :=
  match getRoom db rid with
  | .error e => (.error e, db)
  | .ok none => (.error (.notFound "Room not found"), db)
  | .ok (some _) =>
    match v.value with
    | none => (.error (.databaseError "Invalid vote value"), db)
    | some s =>
      match alookup db.votes uid with
      | some _ =>
        (.ok (), { db with votes := updateKey db.votes uid (fun vr => { vr with vote := s }) })
      | none =>
        if (alookup db.users uid).isNone then
          (.error (.databaseError "FOREIGN KEY constraint failed"), db)
        else
          (.ok (), { db with votes := db.votes ++ [(uid, { room_id := rid, vote := s })] })

/-- `Database::reset_votes_for_room` from `db.rs`: delete all the room's
votes and set the room state back to `Voting`, as one gateway call. -/
def resetVotesForRoom (db : DB) (rid : RoomId) : DB :=
  updateRoomState { db with votes := db.votes.filter (fun p => !(p.2.room_id == rid)) } rid .voting

/-- `Database::reveal_votes` from `db.rs`: load the room, fail with
`Forbidden` unless the caller is the owner, else set the state to
`Revealed`. -/
def dbRevealVotes (db : DB) (rid : RoomId) (uid : UserId) :
    Except AppError Unit × DB :=
  match getRoom db rid with
  | .error e => (.error e, db)
  | .ok none => (.error (.notFound "Room not found"), db)
  | .ok (some room) =>
    if room.owner_id = some uid then
      (.ok (), updateRoomState db rid .revealed)
    else
      (.error (.forbidden "Only the room owner can reveal votes"), db)

/-- `Database::reset_votes` from `db.rs`: the same ownership check, then
delegate to `reset_votes_for_room`. -/
def dbResetVotes (db : DB) (rid : RoomId) (uid : UserId) :
    Except AppError Unit × DB :=
  match getRoom db rid with
  | .error e => (.error e, db)
  | .ok none => (.error (.notFound "Room not found"), db)
  | .ok (some room) =>
    if room.owner_id = some uid then
      (.ok (), resetVotesForRoom db rid)
    else
      (.error (.forbidden "Only the room owner can reset votes"), db)

/-! ## Request handlers (`routes/room.rs`, `routes/vote.rs`)

Identifier parsing of the path/body UUID strings is not modelled (ids are
already opaque tokens here); freshly generated ids (`Uuid::new_v4`) are
explicit parameters.  Event publication has no effect on the store; the
payload computations that the claims are about are modelled as pure
functions (`revealPayload`, `joinPublishedEvent`). -/

/-- `Room::new` from `models/room.rs`: fresh room in state `Voting`, with
the optional creator as single initial user and owner. -/
def roomNew (rid : RoomId) (name : String) (owner : Option UserRec) : Room :=
  { id := rid, name := name, state := .voting,
    users := match owner with | some o => [(o.id, o)] | none => [],
    votes := [], owner_id := owner.map (fun o => o.id) }

/-- The initial-user loop of `Database::create_room`: `add_user` for every
user of the new room aggregate, stopping at the first failure. -/
def addUsersList : DB → List (UserId × UserRec) → RoomId → Except AppError Unit × DB
  | db, [], _ => (.ok (), db)
  | db, (_, u) :: rest, rid =>
    match addUser db u rid with
    | (.error e, db1) => (.error e, db1)
    | (.ok _, db1) => addUsersList db1 rest rid

/-- `Database::create_room` from `db.rs`: insert the room row (the primary
key makes a duplicate id fail), then add the initial users. -/
def dbCreateRoom (db : DB) (room : Room) : Except AppError Unit × DB :=
  if (alookup db.rooms room.id).isSome then
    (.error (.databaseError "UNIQUE constraint failed: rooms.id"), db)
  else
    addUsersList
      { db with rooms := db.rooms ++ [(room.id, { name := room.name, state := room.state, owner_id := room.owner_id })] }
      room.users room.id

/-- `create_room` handler from `routes/room.rs`: build the room (with an
owner-user when a creator name is given), persist it, return it.  `rid` and
the creator's id are the generated identifiers. -/
def createRoomRoute (db : DB) (rid : RoomId) (name : String)
    (creator : Option (UserId × String)) : Except AppError Room × DB :=
  let owner := creator.map (fun c => ({ id := c.1, name := c.2, is_observer := false } : UserRec))
  let room := roomNew rid name owner
  match dbCreateRoom db room with
  | (.error e, db1) => (.error e, db1)
  | (.ok _, db1) => (.ok room, db1)

/-- `join_room` handler from `routes/room.rs`: require the room to exist,
create the user, persist them.  `newUid` is the generated identifier. -/
def joinRoomRoute (db : DB) (rid : RoomId) (newUid : UserId) (name : String)
    (obs : Bool) : Except AppError UserRec × DB :=
  match getRoom db rid with
  | .error e => (.error e, db)
  | .ok none => (.error (.notFound "Room not found"), db)
  | .ok (some _) =>
    let u : UserRec := { id := newUid, name := name, is_observer := obs }
    match addUser db u rid with
    | (.error e, db1) => (.error e, db1)
    | (.ok _, db1) => (.ok u, db1)

/-- `leave_room` handler from `routes/room.rs`: remove the user (keyed on
the user id alone), then — reading the room named by the *path* — if the
departed user was that room's owner, promote the first listed remaining
user, or delete the room when none remain. -/
def leaveRoomRoute (db : DB) (rid : RoomId) (uid : UserId) :
    Except AppError UserRec × DB :=
  match removeUser db uid with
  | (none, db1) => (.error (.notFound "User not found in room"), db1)
  | (some (user, _), db1) =>
    match getRoom db1 rid with
    | .error e => (.error e, db1)
    | .ok none => (.ok user, db1)
    | .ok (some room) =>
      if room.owner_id = some uid then
        if countUsersInRoom db1 rid > 0 then
          match (getUsersForRoom db1 rid).head? with
          | some first => (.ok user, updateRoomOwner db1 rid (some first.1))
          | none => (.ok user, db1)
        else
          (.ok user, (deleteRoom db1 rid).2)
      else
        (.ok user, db1)

/-- `submit_vote` handler from `routes/vote.rs`: parse the token (bad
request on an unrecognized one), then upsert via `Database::add_vote`. -/
def submitVoteRoute (db : DB) (rid : RoomId) (uid : UserId) (voteStr : String) :
    Except AppError Unit × DB :=
  match voteFromString voteStr with
  | .error e => (.error (.badRequest e), db)
  | .ok v => addVote db rid uid v

/-- Display value used in the reveal payload:
`vote.value().unwrap_or_else(|| "hidden".to_string())` in `routes/vote.rs`. -/
def displayValue (v : Vote) : String :=
  (Vote.value v).getD "hidden"

/-- The `VotesRevealed` payload loop of the `reveal_votes` handler in
`routes/vote.rs`: one `(user_id, display value)` entry for every vote of the
reloaded room whose user is still in the room's user map. -/
def revealPayload (room : Room) : List (UserId × String) :=
  (room.votes.filter (fun p => (alookup room.users p.1).isSome)).map
    (fun p => (p.1, displayValue p.2))

/-- `reveal_votes` handler from `routes/vote.rs`: ownership-checked state
transition in the gateway, then reload the room and compute the published
payload (the reload happens when the room's event channel exists, the case
the payload claims are about). -/
def revealVotesRoute (db : DB) (rid : RoomId) (uid : UserId) :
    Except AppError (List (UserId × String)) × DB :=
  match dbRevealVotes db rid uid with
  | (.error e, db1) => (.error e, db1)
  | (.ok _, db1) =>
    match getRoom db1 rid with
    | .error e => (.error e, db1)
    | .ok none => (.error (.notFound "Room not found"), db1)
    | .ok (some room) => (.ok (revealPayload room), db1)

/-- `reset_votes` handler from `routes/vote.rs`: ownership-checked clear and
return to `Voting` in the gateway. -/
def resetVotesRoute (db : DB) (rid : RoomId) (uid : UserId) :
    Except AppError Unit × DB :=
  dbResetVotes db rid uid

/-! ## The event union and the join handler's published payload (C8)

`state.rs` declares the event union with `UserJoined(User)` carrying the
new user's full record.  The `join_room` handler in `routes/room.rs`
instead constructs a `UserJoined` with the three fields
`room_id`/`user_id`/`user_name` (and `create_room` a `RoomUpdated` variant
the union does not even declare) — a shape that does not match the declared
union and that omits `is_observer`. -/

/-- The event union as declared in `state.rs` (`RoomEvent`). -/
inductive RoomEvent where
  | userJoined (user : UserRec)
  | userLeft (user_id : UserId)
  | voteSubmitted (user_id : UserId)
  | votesRevealed (votes : List (UserId × String))
  | votesReset
deriving DecidableEq, Repr

/-- The fields the `join_room` handler actually packs into the event it
publishes (`routes/room.rs`, lines 85–89). -/
structure JoinedEventFields where
  room_id : RoomId
  user_id : UserId
  user_name : String
deriving DecidableEq, Repr

/-- The event payload constructed by `join_room` for the new user. -/
def joinPublishedEvent (rid : RoomId) (u : UserRec) : JoinedEventFields :=
  { room_id := rid, user_id := u.id, user_name := u.name }

/-! ## Operations as data

The mutating requests of the API, used to state invariants over arbitrary
operation sequences. -/

/-- One mutating API request. -/
inductive Op where
  | create (rid : RoomId) (name : String) (creator : Option (UserId × String))
  | join (rid : RoomId) (uid : UserId) (name : String) (obs : Bool)
  | leave (rid : RoomId) (uid : UserId)
  | vote (rid : RoomId) (uid : UserId) (tok : String)
  | reveal (rid : RoomId) (uid : UserId)
  | reset (rid : RoomId) (uid : UserId)
deriving DecidableEq, Repr

/-- The store after handling one request (whether it succeeded or failed). -/
def applyOp (db : DB) : Op → DB
  | .create rid name c => (createRoomRoute db rid name c).2
  | .join rid uid name obs => (joinRoomRoute db rid uid name obs).2
  | .leave rid uid => (leaveRoomRoute db rid uid).2
  | .vote rid uid tok => (submitVoteRoute db rid uid tok).2
  | .reveal rid uid => (revealVotesRoute db rid uid).2
  | .reset rid uid => (resetVotesRoute db rid uid).2

/-- The store after handling a sequence of requests. -/
def applyOps (db : DB) (ops : List Op) : DB :=
  ops.foldl applyOp db

/-- Every stored vote string parses back to a token (true of every store the
system itself builds, since `add_vote` only stores canonical strings). -/
def VotesParse (db : DB) : Prop :=
  ∀ p ∈ db.votes, ∃ v : Vote, voteFromString p.2.vote = .ok v

/-- The per-room subset invariant of the spec: every vote row's user exists
and belongs to the room the vote row names.  Since `user_id` is the primary
key of both the `users` and `votes` tables, this says exactly that for every
room the key set of its vote map (`votes` rows naming the room) is contained
in the key set of its user map (`users` rows naming the room). -/
def RoomVotesSubUsers (db : DB) : Prop :=
  ∀ p ∈ db.votes, ∃ ur, alookup db.users p.1 = some ur ∧ ur.room_id = p.2.room_id

/-! ## Concrete example stores (used to instantiate theorems) -/

/-- A room with an owner, a second member and one stored vote. -/
def dbOwned : DB :=
  { rooms := [(0, { name := "r", state := .voting, owner_id := some 1 })],
    users := [(1, { name := "a", is_observer := false, room_id := 0 }),
              (2, { name := "b", is_observer := false, room_id := 0 })],
    votes := [(1, { room_id := 0, vote := "5" })] }

/-- An ownerless room (created without a creator name) with one member. -/
def dbNoOwner : DB :=
  { rooms := [(0, { name := "r", state := .voting, owner_id := none })],
    users := [(1, { name := "a", is_observer := false, room_id := 0 })],
    votes := [] }

/-- Two rooms and a single user who is a member of room 1 only. -/
def dbTwoRooms : DB :=
  { rooms := [(0, { name := "A", state := .voting, owner_id := none }),
              (1, { name := "B", state := .voting, owner_id := none })],
    users := [(5, { name := "x", is_observer := false, room_id := 1 })],
    votes := [] }

/-- The side condition under which submit-vote preserves the subset
invariant: the voter already has a vote row (so the upsert only rewrites the
token string) or is a member of the room named by the request (so the fresh
row's room matches the voter's).  Every other operation needs no condition. -/
def opVoteCond (db : DB) : Op → Prop
  | .vote rid uid _ => (alookup db.votes uid).isSome ∨
      ∃ ur, alookup db.users uid = some ur ∧ ur.room_id = rid
  | _ => True

/-! ## Table lemmas -/

theorem alookup_cons {α : Type} (k : Nat) (v : α) (rest : List (Nat × α)) (key : Nat) :
    alookup ((k, v) :: rest) key = if k = key then some v else alookup rest key := rfl

theorem alookup_some_mem {α : Type} {l : List (Nat × α)} {k : Nat} {v : α} :
    alookup l k = some v → (k, v) ∈ l := by
  induction l with
  | nil => intro h; simp [alookup] at h
  | cons p rest ih =>
    intro h
    obtain ⟨k', v'⟩ := p
    rw [alookup_cons] at h
    split at h
    · next heq =>
      injection h with h
      subst h
      subst heq
      exact List.mem_cons_self _ _
    · exact List.mem_cons_of_mem _ (ih h)

theorem eraseKey_cons {α : Type} (k' : Nat) (v' : α) (rest : List (Nat × α)) (k : Nat) :
    eraseKey ((k', v') :: rest) k =
      if k' = k then eraseKey rest k else (k', v') :: eraseKey rest k := by
  by_cases h : k' = k <;> simp [eraseKey, List.filter_cons, h]

theorem alookup_eraseKey_self {α : Type} (l : List (Nat × α)) (k : Nat) :
    alookup (eraseKey l k) k = none := by
  induction l with
  | nil => rfl
  | cons p rest ih =>
    obtain ⟨k', v'⟩ := p
    rw [eraseKey_cons]
    by_cases h : k' = k
    · rw [if_pos h]; exact ih
    · rw [if_neg h, alookup_cons, if_neg h]; exact ih

theorem alookup_eraseKey_ne {α : Type} {l : List (Nat × α)} {key k : Nat}
    (h : key ≠ k) : alookup (eraseKey l k) key = alookup l key := by
  induction l with
  | nil => rfl
  | cons p rest ih =>
    obtain ⟨k', v'⟩ := p
    rw [eraseKey_cons, alookup_cons]
    by_cases hk : k' = k
    · rw [if_pos hk, if_neg (by rw [hk]; exact fun e => h e.symm), ih]
    · rw [if_neg hk, alookup_cons, ih]

theorem alookup_filter_none {α : Type} {l : List (Nat × α)} {k : Nat}
    (q : Nat × α → Bool) (h : alookup l k = none) :
    alookup (l.filter q) k = none := by
  induction l with
  | nil => rfl
  | cons p rest ih =>
    obtain ⟨k', v'⟩ := p
    rw [alookup_cons] at h
    by_cases hk : k' = k
    · rw [if_pos hk] at h; exact absurd h (by simp)
    · rw [if_neg hk] at h
      rw [List.filter_cons]
      by_cases hq : q (k', v')
      · rw [if_pos (by simpa using hq), alookup_cons, if_neg hk]; exact ih h
      · rw [if_neg (by simpa using hq)]; exact ih h

theorem alookup_append_some {α : Type} {l₁ : List (Nat × α)} (l₂ : List (Nat × α))
    {k : Nat} {v : α} (h : alookup l₁ k = some v) :
    alookup (l₁ ++ l₂) k = some v := by
  induction l₁ with
  | nil => simp [alookup] at h
  | cons p rest ih =>
    obtain ⟨k', v'⟩ := p
    rw [alookup_cons] at h
    rw [List.cons_append, alookup_cons]
    by_cases hk : k' = k
    · rwa [if_pos hk] at h ⊢
    · rw [if_neg hk] at h ⊢; exact ih h

theorem alookup_append_none {α : Type} {l₁ : List (Nat × α)} (l₂ : List (Nat × α))
    {k : Nat} (h : alookup l₁ k = none) :
    alookup (l₁ ++ l₂) k = alookup l₂ k := by
  induction l₁ with
  | nil => rfl
  | cons p rest ih =>
    obtain ⟨k', v'⟩ := p
    rw [alookup_cons] at h
    rw [List.cons_append, alookup_cons]
    by_cases hk : k' = k
    · rw [if_pos hk] at h; exact absurd h (by simp)
    · rw [if_neg hk] at h ⊢; exact ih h

theorem updateKey_cons {α : Type} (k' : Nat) (v' : α) (rest : List (Nat × α))
    (k : Nat) (f : α → α) :
    updateKey ((k', v') :: rest) k f =
      (if k' = k then (k', f v') else (k', v')) :: updateKey rest k f := by
  simp only [updateKey, List.map_cons]
  by_cases h : k' = k <;> simp [h]

theorem alookup_updateKey_self {α : Type} (l : List (Nat × α)) (k : Nat) (f : α → α) :
    alookup (updateKey l k f) k = (alookup l k).map f := by
  induction l with
  | nil => rfl
  | cons p rest ih =>
    obtain ⟨k', v'⟩ := p
    rw [updateKey_cons]
    by_cases h : k' = k
    · rw [if_pos h, alookup_cons, if_pos h, alookup_cons, if_pos h]; rfl
    · rw [if_neg h, alookup_cons, if_neg h, alookup_cons, if_neg h]; exact ih

theorem alookup_updateKey_ne {α : Type} {l : List (Nat × α)} {key k : Nat}
    (f : α → α) (h : key ≠ k) :
    alookup (updateKey l k f) key = alookup l key := by
  induction l with
  | nil => rfl
  | cons p rest ih =>
    obtain ⟨k', v'⟩ := p
    rw [updateKey_cons]
    by_cases hk : k' = k
    · have hne : k' ≠ key := by rw [hk]; exact fun e => h e.symm
      rw [if_pos hk, alookup_cons, if_neg hne, alookup_cons, if_neg hne]; exact ih
    · rw [if_neg hk, alookup_cons, alookup_cons]
      by_cases h2 : k' = key
      · rw [if_pos h2, if_pos h2]
      · rw [if_neg h2, if_neg h2]; exact ih

theorem filter_swap {α : Type} (p q : α → Bool) (l : List α) :
    (l.filter p).filter q = (l.filter q).filter p := by
  induction l with
  | nil => rfl
  | cons a rest ih =>
    by_cases hp : p a <;> by_cases hq : q a <;>
      simp [List.filter_cons, hp, hq, ih]

/-! ## Vote parsing lemmas -/

/-- Canonical token strings round-trip through the parser. -/
theorem voteFromString_value {v : Vote} {s : String}
    (h : Vote.value v = some s) : voteFromString s = .ok v := by
  cases v <;> simp only [Vote.value] at h <;>
    first
    | (injection h with h; subst h; rfl)
    | exact absurd h (by simp)

theorem parseVoteRows_ok_of_all {l : List (UserId × VoteRow)}
    (h : ∀ p ∈ l, ∃ v : Vote, voteFromString p.2.vote = .ok v) :
    ∃ l', parseVoteRows l = .ok l' := by
  induction l with
  | nil => exact ⟨[], rfl⟩
  | cons p rest ih =>
    obtain ⟨u, vr⟩ := p
    obtain ⟨v, hv⟩ := h (u, vr) (List.mem_cons_self _ _)
    obtain ⟨rest', hrest⟩ := ih (fun q hq => h q (List.mem_cons_of_mem _ hq))
    exact ⟨(u, v) :: rest', by simp only [parseVoteRows, hv, hrest]⟩

theorem parseVoteRows_alookup {l : List (UserId × VoteRow)} {l' : List (UserId × Vote)}
    (h : parseVoteRows l = .ok l') (u : UserId) :
    (alookup l u = none → alookup l' u = none) ∧
    (∀ vr, alookup l u = some vr →
      ∃ v, voteFromString vr.vote = .ok v ∧ alookup l' u = some v) := by
  induction l generalizing l' with
  | nil =>
    simp only [parseVoteRows] at h
    injection h with h
    subst h
    exact ⟨fun _ => rfl, fun vr hvr => by simp [alookup] at hvr⟩
  | cons p rest ih =>
    obtain ⟨k, vr0⟩ := p
    simp only [parseVoteRows] at h
    split at h
    · exact absurd h (by simp)
    · next v0 hv =>
      split at h
      · exact absurd h (by simp)
      · next rest' hrest =>
        injection h with h
        subst h
        obtain ⟨ihn, ihs⟩ := ih hrest
        constructor
        · intro hn
          rw [alookup_cons] at hn
          rw [alookup_cons]
          by_cases hk : k = u
          · rw [if_pos hk] at hn; exact absurd hn (by simp)
          · rw [if_neg hk] at hn; rw [if_neg hk]; exact ihn hn
        · intro vr hvr
          rw [alookup_cons] at hvr
          by_cases hk : k = u
          · rw [if_pos hk] at hvr
            injection hvr with hvr
            subst hvr
            exact ⟨v0, hv, by rw [alookup_cons, if_pos hk]⟩
          · rw [if_neg hk] at hvr
            obtain ⟨v, hv', hl⟩ := ihs vr hvr
            exact ⟨v, hv', by rw [alookup_cons, if_neg hk]; exact hl⟩

theorem parseVoteRows_keys {l : List (UserId × VoteRow)} {l' : List (UserId × Vote)}
    (h : parseVoteRows l = .ok l') :
    l'.map Prod.fst = l.map Prod.fst := by
  induction l generalizing l' with
  | nil =>
    simp only [parseVoteRows] at h
    injection h with h
    subst h
    rfl
  | cons p rest ih =>
    obtain ⟨k, vr0⟩ := p
    simp only [parseVoteRows] at h
    split at h
    · exact absurd h (by simp)
    · split at h
      · exact absurd h (by simp)
      · next rest' hrest =>
        injection h with h
        subst h
        simp [ih hrest]

/-- The store-building helper facts: stores whose vote table is a sublist of
a parsing store still parse. -/
theorem votesParse_sub {db db2 : DB} (h : VotesParse db)
    (hsub : ∀ p ∈ db2.votes, p ∈ db.votes) : VotesParse db2 :=
  fun p hp => h p (hsub p hp)

/-- `get_room` on an existing room under a parsing store: the assembled
aggregate, field by field. -/
theorem getRoom_some {db : DB} {rid : RoomId} {row : RoomRow}
    (h : alookup db.rooms rid = some row) (hv : VotesParse db) :
    ∃ votes, parseVoteRows (votesRowsFor db rid) = .ok votes ∧
      getRoom db rid = .ok (some { id := rid, name := row.name, state := row.state,
                                   users := getUsersForRoom db rid, votes := votes,
                                   owner_id := row.owner_id }) := by
  obtain ⟨votes, hvotes⟩ :=
    parseVoteRows_ok_of_all (l := votesRowsFor db rid)
      (fun p hp => hv p (List.mem_of_mem_filter hp))
  exact ⟨votes, hvotes, by simp only [getRoom, h, getVotesForRoom, hvotes]⟩

/-- `remove_user` on an existing user: the returned record and the erased
tables. -/
theorem removeUser_eq_some {db : DB} {uid : UserId} {ur : UserRow}
    (h : alookup db.users uid = some ur) :
    removeUser db uid =
      (some ({ id := uid, name := ur.name, is_observer := ur.is_observer }, ur.room_id),
       { rooms := db.rooms, users := eraseKey db.users uid, votes := eraseKey db.votes uid }) := by
  simp [removeUser, h, removeVote]

/-- A successful `get_room` pins down the room row: the metadata fields of
the aggregate are the stored row. -/
theorem getRoom_ok_room {db : DB} {rid : RoomId} {room : Room}
    (h : getRoom db rid = .ok (some room)) :
    alookup db.rooms rid =
      some { name := room.name, state := room.state, owner_id := room.owner_id } := by
  unfold getRoom at h
  split at h
  · exact absurd h (by simp)
  · next row hrow =>
    split at h
    · exact absurd h (by simp)
    · next votes hv =>
      injection h with h
      injection h with h
      subst h
      exact hrow

/-- `(l.filter ¬q).filter q = []`: a table purged of the rows satisfying a
condition has no row satisfying it. -/
theorem filter_not_self {α : Type} (q : α → Bool) (l : List α) :
    (l.filter (fun a => !(q a))).filter q = [] := by
  induction l with
  | nil => rfl
  | cons a rest ih =>
    by_cases h : q a <;> simp [List.filter_cons, h, ih]

/-- Narrowing a filter that is implied by another: filtering first by the
weaker condition changes nothing. -/
theorem filter_filter_of_imp {α : Type} {q r : α → Bool}
    (h : ∀ a, q a = true → r a = true) (l : List α) :
    (l.filter r).filter q = l.filter q := by
  induction l with
  | nil => rfl
  | cons a rest ih =>
    by_cases hr : r a
    · by_cases hq : q a <;> simp [List.filter_cons, hr, hq, ih]
    · have hq : q a = false := by
        cases hqa : q a
        · rfl
        · exact absurd (h a hqa) (by simp [hr])
      simp [List.filter_cons, hr, hq, ih]

/-- Rows keyed differently survive `eraseKey`. -/
theorem mem_eraseKey_of_ne {α : Type} {l : List (Nat × α)} {p : Nat × α} {u : Nat}
    (h : p ∈ l) (hk : p.1 ≠ u) : p ∈ eraseKey l u :=
  List.mem_filter.mpr ⟨h, by simp [hk]⟩

/-- Every row of `eraseKey l u` has a key different from `u`. -/
theorem ne_of_mem_eraseKey {α : Type} {l : List (Nat × α)} {p : Nat × α} {u : Nat}
    (h : p ∈ eraseKey l u) : p.1 ≠ u := by
  have := (List.mem_filter.mp h).2
  simpa using this

/-! ## Claim theorems -/

/-- C2: for every existing room and every user id that is not the room's
`owner_id`, reveal and reset both fail with `Forbidden`, and the store they
return is the input store — state, users, votes and owner are untouched by
the failed call. -/
theorem C2_reveal_reset_nonowner_forbidden (db : DB) (rid : RoomId) (uid : UserId)
    (room : Room) (hroom : getRoom db rid = .ok (some room))
    (hno : room.owner_id ≠ some uid) :
    dbRevealVotes db rid uid = (.error (.forbidden "Only the room owner can reveal votes"), db) ∧
    dbResetVotes db rid uid = (.error (.forbidden "Only the room owner can reset votes"), db) := by
  constructor <;> simp [dbRevealVotes, dbResetVotes, hroom, hno]

/-- Witness for C2 on a concrete store: user 2 is not the owner of room 0. -/
theorem C2_witness :
    dbRevealVotes dbOwned 0 2 = (.error (.forbidden "Only the room owner can reveal votes"), dbOwned) ∧
    dbResetVotes dbOwned 0 2 = (.error (.forbidden "Only the room owner can reset votes"), dbOwned) :=
  C2_reveal_reset_nonowner_forbidden dbOwned 0 2
    { id := 0, name := "r", state := .voting,
      users := [(1, { id := 1, name := "a", is_observer := false }),
                (2, { id := 2, name := "b", is_observer := false })],
      votes := [(1, .five)], owner_id := some 1 }
    (by rfl) (by decide)

/-- C4: a successful reset (by whoever passes the ownership check) leaves
the room's state `Voting` and its vote set empty, with no hypothesis on the
prior state; the clear and the state change are the single gateway call
`reset_votes_for_room`. -/
theorem C4_reset_clears_votes_and_state (db db' : DB) (rid : RoomId) (uid : UserId)
    (h : dbResetVotes db rid uid = (.ok (), db')) :
    (∃ row, alookup db'.rooms rid = some row ∧ row.state = .voting) ∧
    votesRowsFor db' rid = [] ∧ getVotesForRoom db' rid = .ok [] := by
  unfold dbResetVotes at h
  split at h
  · exact absurd h (by simp)
  · exact absurd h (by simp)
  · next room hroom =>
    split at h
    · have hdb : db' = resetVotesForRoom db rid := (congrArg Prod.snd h).symm
      subst hdb
      have hrow := getRoom_ok_room hroom
      refine ⟨⟨{ name := room.name, state := .voting, owner_id := room.owner_id }, ?_, rfl⟩, ?_, ?_⟩
      · show alookup (updateKey db.rooms rid (fun r => { r with state := RoomState.voting })) rid = _
        rw [alookup_updateKey_self, hrow]
        rfl
      · show ((db.votes.filter (fun p => !(p.2.room_id == rid))).filter (fun p => p.2.room_id == rid)) = []
        exact filter_not_self _ db.votes
      · show parseVoteRows ((db.votes.filter (fun p => !(p.2.room_id == rid))).filter (fun p => p.2.room_id == rid)) = .ok []
        rw [filter_not_self]
        rfl
    · exact absurd h (by simp)

/-- Witness for C4: the owner of `dbOwned` (user 1) resets room 0, which had
one stored vote. -/
theorem C4_witness :
    (∃ row, alookup ((dbResetVotes dbOwned 0 1).2).rooms 0 = some row ∧ row.state = .voting) ∧
    votesRowsFor (dbResetVotes dbOwned 0 1).2 0 = [] ∧
    getVotesForRoom (dbResetVotes dbOwned 0 1).2 0 = .ok [] :=
  C4_reset_clears_votes_and_state dbOwned (dbResetVotes dbOwned 0 1).2 0 1 (by rfl)

/-- C8 (code bug): `state.rs` declares the union payload `UserJoined(User)`
carrying the full record, but the `join_room` handler packs only
`room_id`/`user_id`/`user_name` — two users differing in `is_observer` give
distinct declared payloads yet identical published events, so the published
event cannot carry the full record. -/
theorem C8_join_event_not_full_record :
    joinPublishedEvent 0 { id := 1, name := "Bob", is_observer := false } =
      joinPublishedEvent 0 { id := 1, name := "Bob", is_observer := true } ∧
    RoomEvent.userJoined { id := 1, name := "Bob", is_observer := false } ≠
      RoomEvent.userJoined { id := 1, name := "Bob", is_observer := true } :=
  ⟨rfl, by decide⟩

/-- C6 counterexample: `"COFFEE"` is not the canonical string of any token,
yet parsing it succeeds (the parser lowercases first), refuting "for every
string that is not the canonical form of any token, parsing fails". -/
theorem C6_counterexample :
    (∀ v : Vote, Vote.value v ≠ some "COFFEE") ∧
    voteFromString "COFFEE" = .ok .coffee := by
  constructor
  · intro v; cases v <;> simp [Vote.value]
  · rfl

/-- C6 amended: canonical strings round-trip through the parser, and every
string whose **lowercased** form is not the canonical form of any token
fails to parse, making submit-vote report a bad-request error and leave the
store untouched. -/
theorem C6_roundtrip_and_reject (v : Vote) (s : String) (str : String)
    (hval : Vote.value v = some s)
    (hbad : ∀ w : Vote, Vote.value w ≠ some (toLowerString str)) :
    voteFromString s = .ok v ∧
    voteFromString str = .error ("Invalid vote value: " ++ str) ∧
    ∀ db rid uid, submitVoteRoute db rid uid str =
      (.error (.badRequest ("Invalid vote value: " ++ str)), db) := by
  have hparse : voteFromString str = .error ("Invalid vote value: " ++ str) := by
    unfold voteFromString
    split
    · next h0 => exact absurd (by rw [h0]; rfl) (hbad .zero)
    · next h0 => exact absurd (by rw [h0]; rfl) (hbad .one)
    · next h0 => exact absurd (by rw [h0]; rfl) (hbad .two)
    · next h0 => exact absurd (by rw [h0]; rfl) (hbad .three)
    · next h0 => exact absurd (by rw [h0]; rfl) (hbad .five)
    · next h0 => exact absurd (by rw [h0]; rfl) (hbad .eight)
    · next h0 => exact absurd (by rw [h0]; rfl) (hbad .thirteen)
    · next h0 => exact absurd (by rw [h0]; rfl) (hbad .twentyOne)
    · next h0 => exact absurd (by rw [h0]; rfl) (hbad .questionMark)
    · next h0 => exact absurd (by rw [h0]; rfl) (hbad .coffee)
    · rfl
  exact ⟨voteFromString_value hval, hparse,
         fun db rid uid => by simp only [submitVoteRoute, hparse]⟩

/-- Witness for C6: the token `"5"` round-trips; `"hello"` is rejected by
the parser and by the submit-vote handler. -/
theorem C6_witness :
    voteFromString "5" = .ok .five ∧
    voteFromString "hello" = .error "Invalid vote value: hello" ∧
    submitVoteRoute dbOwned 0 2 "hello" =
      (.error (.badRequest "Invalid vote value: hello"), dbOwned) := by
  obtain ⟨h1, h2, h3⟩ := C6_roundtrip_and_reject .five "5" "hello" rfl
    (by intro w; cases w <;> simp [Vote.value] <;> decide)
  exact ⟨h1, h2, h3 dbOwned 0 2⟩

/-- C1 counterexample: in an ownerless room the departure of the last user
does **not** delete the room record — `leave_room` only runs its cleanup
when the departing user was the owner, so the claim's universal
"no users remain ⟹ room deleted" fails at this input. -/
theorem C1_counterexample :
    (leaveRoomRoute dbNoOwner 0 1).1 = .ok { id := 1, name := "a", is_observer := false } ∧
    usersRowsFor (leaveRoomRoute dbNoOwner 0 1).2 0 = [] ∧
    alookup (leaveRoomRoute dbNoOwner 0 1).2.rooms 0 =
      some { name := "r", state := .voting, owner_id := none } :=
  ⟨rfl, rfl, rfl⟩

/-- C7 counterexample: user 5 is a member of room 1 only, yet
`submit_vote` on room 0 succeeds (room 0 exists, user 5 exists — both
foreign keys hold) and records a vote row for room 0, breaking the
votes-keys ⊆ users-keys invariant for room 0. -/
theorem C7_counterexample :
    RoomVotesSubUsers dbTwoRooms ∧
    (submitVoteRoute dbTwoRooms 0 5 "5").1 = .ok () ∧
    alookup (submitVoteRoute dbTwoRooms 0 5 "5").2.votes 5 = some { room_id := 0, vote := "5" } ∧
    alookup (submitVoteRoute dbTwoRooms 0 5 "5").2.users 5 =
      some { name := "x", is_observer := false, room_id := 1 } ∧
    ¬ RoomVotesSubUsers (submitVoteRoute dbTwoRooms 0 5 "5").2 := by
  refine ⟨?_, rfl, rfl, rfl, ?_⟩
  · intro p hp
    simp [dbTwoRooms] at hp
  · intro hinv
    have hpmem : ((5 : UserId), ({ room_id := 0, vote := "5" } : VoteRow))
        ∈ (submitVoteRoute dbTwoRooms 0 5 "5").2.votes := by
      have hv : (submitVoteRoute dbTwoRooms 0 5 "5").2.votes = [(5, { room_id := 0, vote := "5" })] := rfl
      rw [hv]
      exact List.mem_singleton.mpr rfl
    obtain ⟨ur, hur, hroom⟩ := hinv _ hpmem
    have hu2 : alookup (submitVoteRoute dbTwoRooms 0 5 "5").2.users 5 =
        some { name := "x", is_observer := false, room_id := 1 } := rfl
    rw [hu2] at hur
    injection hur with hur
    rw [← hur] at hroom
    exact absurd hroom (by decide)

/-- C1 amended: for a room whose `owner_id` is set and keys into its user
set, after any member leaves: if users remain, the room's `owner_id` is the
id of some remaining user and never the departed user's id; if no users
remain, the room record is deleted.  (Ownerless rooms are exempt: see the
counterexample — their owner stays `none` and the record is never deleted.) -/
theorem C1_owner_succession (db : DB) (rid : RoomId) (u w : UserId)
    (row : RoomRow) (ur wr : UserRow)
    (hrow : alookup db.rooms rid = some row)
    (hown : row.owner_id = some w)
    (hu : alookup db.users u = some ur) (hur : ur.room_id = rid)
    (hw : alookup db.users w = some wr) (hwr : wr.room_id = rid)
    (hparse : VotesParse db) :
    ∃ db', leaveRoomRoute db rid u =
        (.ok { id := u, name := ur.name, is_observer := ur.is_observer }, db') ∧
      (usersRowsFor db' rid = [] → alookup db'.rooms rid = none) ∧
      (usersRowsFor db' rid ≠ [] →
        ∃ row' w', alookup db'.rooms rid = some row' ∧ row'.owner_id = some w' ∧
          w' ≠ u ∧ w' ∈ (usersRowsFor db' rid).map Prod.fst) := by
  have hrem := removeUser_eq_some hu
  have hparse1 : VotesParse { rooms := db.rooms, users := eraseKey db.users u, votes := eraseKey db.votes u } :=
    votesParse_sub hparse (fun p hp => List.mem_of_mem_filter hp)
  obtain ⟨votes, hvotes, hget⟩ :=
    @getRoom_some { rooms := db.rooms, users := eraseKey db.users u, votes := eraseKey db.votes u }
      rid row hrow hparse1
  by_cases hwu : w = u
  · subst hwu
    by_cases hempty :
        usersRowsFor { rooms := db.rooms, users := eraseKey db.users w, votes := eraseKey db.votes w } rid = []
    · -- the owner was the last user: the room is deleted
      refine ⟨(deleteRoom { rooms := db.rooms, users := eraseKey db.users w, votes := eraseKey db.votes w } rid).2,
              ?_, ?_, ?_⟩
      · simp only [leaveRoomRoute, hrem, hget, hown, countUsersInRoom, hempty]
        simp
      · intro _
        exact alookup_eraseKey_self _ _
      · intro hne
        refine absurd ?_ hne
        show ((eraseKey db.users w).filter (fun p => !(p.2.room_id == rid))).filter (fun p => p.2.room_id == rid) = []
        exact filter_not_self _ _
    · -- the owner left but users remain: the first listed user is promoted
      obtain ⟨p, ps, hps⟩ := List.exists_cons_of_ne_nil hempty
      have hplen :
          countUsersInRoom { rooms := db.rooms, users := eraseKey db.users w, votes := eraseKey db.votes w } rid > 0 := by
        simp [countUsersInRoom, hps]
      have hpin : p ∈ usersRowsFor { rooms := db.rooms, users := eraseKey db.users w, votes := eraseKey db.votes w } rid := by
        rw [hps]; exact List.mem_cons_self _ _
      have hpne : p.1 ≠ w := ne_of_mem_eraseKey (List.mem_of_mem_filter hpin)
      refine ⟨updateRoomOwner { rooms := db.rooms, users := eraseKey db.users w, votes := eraseKey db.votes w } rid (some p.1),
              ?_, ?_, ?_⟩
      · simp only [leaveRoomRoute, hrem, hget, hown, getUsersForRoom, hps, List.map_cons,
                   List.head?, if_pos hplen]
        simp [hplen]
      · intro h
        have h2 : usersRowsFor { rooms := db.rooms, users := eraseKey db.users w, votes := eraseKey db.votes w } rid = [] := h
        rw [hps] at h2
        exact absurd h2 (by simp)
      · intro _
        refine ⟨{ row with owner_id := some p.1 }, p.1, ?_, rfl, hpne, ?_⟩
        · show alookup (updateKey db.rooms rid (fun r => { r with owner_id := some p.1 })) rid
              = some { name := row.name, state := row.state, owner_id := some p.1 }
          rw [alookup_updateKey_self, hrow]
          rfl
        · have h2 : usersRowsFor (updateRoomOwner { rooms := db.rooms, users := eraseKey db.users w, votes := eraseKey db.votes w } rid (some p.1)) rid
              = p :: ps := hps
          rw [h2]
          exact List.mem_map.mpr ⟨p, List.mem_cons_self _ _, rfl⟩
  · -- the departing user was not the owner: everything stays as removed
    have hmem : (w, wr) ∈ usersRowsFor { rooms := db.rooms, users := eraseKey db.users u, votes := eraseKey db.votes u } rid :=
      List.mem_filter.mpr ⟨mem_eraseKey_of_ne (alookup_some_mem hw) hwu, by simp [hwr]⟩
    refine ⟨{ rooms := db.rooms, users := eraseKey db.users u, votes := eraseKey db.votes u },
            ?_, ?_, ?_⟩
    · simp only [leaveRoomRoute, hrem, hget, hown]
      simp [hwu]
    · intro h
      rw [h] at hmem
      exact absurd hmem (List.not_mem_nil _)
    · intro _
      exact ⟨row, w, hrow, hown, hwu, List.mem_map.mpr ⟨(w, wr), hmem, rfl⟩⟩

/-- Witness for C1 on a concrete store: the owner (user 1) of `dbOwned`
leaves; user 2 remains and inherits ownership. -/
theorem C1_witness :
    ∃ db', leaveRoomRoute dbOwned 0 1 =
        (.ok { id := 1, name := "a", is_observer := false }, db') ∧
      (usersRowsFor db' 0 = [] → alookup db'.rooms 0 = none) ∧
      (usersRowsFor db' 0 ≠ [] →
        ∃ row' w', alookup db'.rooms 0 = some row' ∧ row'.owner_id = some w' ∧
          w' ≠ 1 ∧ w' ∈ (usersRowsFor db' 0).map Prod.fst) :=
  C1_owner_succession dbOwned 0 1 1
    { name := "r", state := .voting, owner_id := some 1 }
    { name := "a", is_observer := false, room_id := 0 }
    { name := "a", is_observer := false, room_id := 0 }
    (by rfl) (by rfl) (by rfl) (by rfl) (by rfl) (by rfl)
    (by intro p hp
        simp only [dbOwned, List.mem_singleton] at hp
        subst hp
        exact ⟨.five, rfl⟩)

/-- C9: `leave_room` keys removal on the user id alone.  For a user who
belongs to room `ridB`, a leave request naming a *different* existing room
`rid` in the path still succeeds, returns the user's record, and deletes the
user and their vote — the removal happens in the user's actual room, while
the path room is only consulted for the owner-succession/cleanup step. -/
theorem C9_leave_ignores_path_room (db : DB) (rid ridB : RoomId) (uid : UserId)
    (ur : UserRow) (rowA : RoomRow)
    (hu : alookup db.users uid = some ur) (hroomB : ur.room_id = ridB)
    (hA : alookup db.rooms rid = some rowA) (hne : rid ≠ ridB)
    (hparse : VotesParse db) :
    ∃ db', leaveRoomRoute db rid uid =
        (.ok { id := uid, name := ur.name, is_observer := ur.is_observer }, db') ∧
      alookup db'.users uid = none ∧
      alookup db'.votes uid = none ∧
      alookup db'.rooms ridB = alookup db.rooms ridB ∧
      usersRowsFor db' ridB = eraseKey (usersRowsFor db ridB) uid := by
  have hrem := removeUser_eq_some hu
  have hparse1 : VotesParse { rooms := db.rooms, users := eraseKey db.users uid, votes := eraseKey db.votes uid } :=
    votesParse_sub hparse (fun p hp => List.mem_of_mem_filter hp)
  obtain ⟨votes, hvotes, hget⟩ :=
    @getRoom_some { rooms := db.rooms, users := eraseKey db.users uid, votes := eraseKey db.votes uid }
      rid rowA hA hparse1
  have husers1 :
      ((db.users.filter (fun p => !(p.1 == uid))).filter (fun p => p.2.room_id == ridB)) =
        eraseKey (usersRowsFor db ridB) uid :=
    filter_swap _ _ db.users
  have himp : ∀ a : UserId × UserRow,
      (a.2.room_id == ridB) = true → (!(a.2.room_id == rid)) = true := by
    intro a h
    have h2 : a.2.room_id = ridB := by simpa using h
    simp only [h2, Bool.not_eq_true', beq_eq_false_iff_ne]
    exact fun e => hne e.symm
  by_cases hO : rowA.owner_id = some uid
  · by_cases hempty :
        usersRowsFor { rooms := db.rooms, users := eraseKey db.users uid, votes := eraseKey db.votes uid } rid = []
    · refine ⟨(deleteRoom { rooms := db.rooms, users := eraseKey db.users uid, votes := eraseKey db.votes uid } rid).2,
              ?_, ?_, ?_, ?_, ?_⟩
      · simp only [leaveRoomRoute, hrem, hget, hO, countUsersInRoom, hempty]
        simp
      · show alookup ((eraseKey db.users uid).filter (fun p => !(p.2.room_id == rid))) uid = none
        exact alookup_filter_none _ (alookup_eraseKey_self _ _)
      · exact alookup_filter_none _ (alookup_eraseKey_self _ _)
      · show alookup (eraseKey db.rooms rid) ridB = alookup db.rooms ridB
        exact alookup_eraseKey_ne (fun e => hne e.symm)
      · show ((eraseKey db.users uid).filter (fun p => !(p.2.room_id == rid))).filter (fun p => p.2.room_id == ridB)
            = eraseKey (usersRowsFor db ridB) uid
        rw [filter_filter_of_imp himp]
        exact husers1
    · obtain ⟨p, ps, hps⟩ := List.exists_cons_of_ne_nil hempty
      have hplen :
          countUsersInRoom { rooms := db.rooms, users := eraseKey db.users uid, votes := eraseKey db.votes uid } rid > 0 := by
        simp [countUsersInRoom, hps]
      refine ⟨updateRoomOwner { rooms := db.rooms, users := eraseKey db.users uid, votes := eraseKey db.votes uid } rid (some p.1),
              ?_, ?_, ?_, ?_, ?_⟩
      · simp only [leaveRoomRoute, hrem, hget, hO, getUsersForRoom, hps, List.map_cons, List.head?]
        simp [hplen]
      · exact alookup_eraseKey_self _ _
      · exact alookup_eraseKey_self _ _
      · show alookup (updateKey db.rooms rid (fun r => { r with owner_id := some p.1 })) ridB
            = alookup db.rooms ridB
        exact alookup_updateKey_ne _ (fun e => hne e.symm)
      · exact husers1
  · refine ⟨{ rooms := db.rooms, users := eraseKey db.users uid, votes := eraseKey db.votes uid },
            ?_, ?_, ?_, ?_, ?_⟩
    · simp only [leaveRoomRoute, hrem, hget]
      simp [hO]
    · exact alookup_eraseKey_self _ _
    · exact alookup_eraseKey_self _ _
    · rfl
    · exact husers1

/-- Witness for C9: user 5 belongs to room 1; a leave request naming room 0
succeeds and removes user 5 from room 1. -/
theorem C9_witness :
    ∃ db', leaveRoomRoute dbTwoRooms 0 5 =
        (.ok { id := 5, name := "x", is_observer := false }, db') ∧
      alookup db'.users 5 = none ∧
      alookup db'.votes 5 = none ∧
      alookup db'.rooms 1 = alookup dbTwoRooms.rooms 1 ∧
      usersRowsFor db' 1 = eraseKey (usersRowsFor dbTwoRooms 1) 5 :=
  C9_leave_ignores_path_room dbTwoRooms 0 1 5
    { name := "x", is_observer := false, room_id := 1 }
    { name := "A", state := .voting, owner_id := none }
    (by rfl) (by rfl) (by rfl) (by decide)
    (by intro p hp; simp [dbTwoRooms] at hp)

/-- Membership in the reveal payload: exactly the users with a vote entry
whose id is still a key of the room's user map, paired with the display
value of their vote. -/
theorem revealPayload_mem_iff (room : Room) (u : UserId) (s : String) :
    (u, s) ∈ revealPayload room ↔
      ∃ v, (u, v) ∈ room.votes ∧ (alookup room.users u).isSome ∧ s = displayValue v := by
  unfold revealPayload
  constructor
  · intro h
    obtain ⟨p, hp, hf⟩ := List.mem_map.mp h
    obtain ⟨hpin, hpred⟩ := List.mem_filter.mp hp
    injection hf with h1 h2
    subst h1
    exact ⟨p.2, hpin, by simpa using hpred, h2.symm⟩
  · rintro ⟨v, hvin, hsome, hs⟩
    subst hs
    exact List.mem_map.mpr ⟨(u, v), List.mem_filter.mpr ⟨hvin, by simpa using hsome⟩, rfl⟩

/-- The reveal payload has at most one entry per user id when the vote map
does. -/
theorem revealPayload_keys_nodup (room : Room)
    (h : (room.votes.map Prod.fst).Nodup) :
    ((revealPayload room).map Prod.fst).Nodup := by
  unfold revealPayload
  rw [List.map_map]
  have : (Prod.fst ∘ fun p : UserId × Vote => (p.1, displayValue p.2)) = Prod.fst := rfl
  rw [this]
  exact h.sublist ((List.filter_sublist _).map Prod.fst)

/-- C3: after a successful reveal, the published `VotesRevealed` payload is
computed from the post-reveal reload of the room and holds exactly one
entry `(userId, display value)` for every user id that is a key of both the
reloaded room's vote map and its user map — in particular none for departed
users. -/
theorem C3_reveal_payload (db db' : DB) (rid : RoomId) (uid : UserId)
    (payload : List (UserId × String))
    (h : revealVotesRoute db rid uid = (.ok payload, db')) :
    ∃ room, getRoom db' rid = .ok (some room) ∧ payload = revealPayload room ∧
      (∀ u s, (u, s) ∈ payload ↔
        ∃ v, (u, v) ∈ room.votes ∧ (alookup room.users u).isSome ∧ s = displayValue v) ∧
      ((room.votes.map Prod.fst).Nodup → (payload.map Prod.fst).Nodup) := by
  unfold revealVotesRoute at h
  split at h
  · exact absurd h (by simp)
  · next _a db1 _heq =>
    split at h
    · exact absurd h (by simp)
    · exact absurd h (by simp)
    · next room hroom =>
      have hpl : payload = revealPayload room := by
        have := congrArg Prod.fst h
        simpa using this.symm
      have hdb : db' = db1 := by
        have := congrArg Prod.snd h
        simpa using this.symm
      subst hdb
      subst hpl
      exact ⟨room, hroom, rfl,
             fun u s => revealPayload_mem_iff room u s,
             revealPayload_keys_nodup room⟩

/-- Witness for C3: the owner of `dbOwned` reveals; the payload holds the
single vote of user 1, who is still a member. -/
theorem C3_witness :
    ∃ room, getRoom (revealVotesRoute dbOwned 0 1).2 0 = .ok (some room) ∧
      [(1, "5")] = revealPayload room ∧
      (∀ u s, (u, s) ∈ [(1, "5")] ↔
        ∃ v, (u, v) ∈ room.votes ∧ (alookup room.users u).isSome ∧ s = displayValue v) ∧
      ((room.votes.map Prod.fst).Nodup → (([(1, "5")] : List (UserId × String)).map Prod.fst).Nodup) :=
  C3_reveal_payload dbOwned (revealVotesRoute dbOwned 0 1).2 0 1 [(1, "5")] (by rfl)

/-- The two ways `add_vote` can succeed: an upsert-update that rewrites only
the stored token string of the user's existing row, or a fresh insert of a
row naming the requested room. -/
theorem addVote_ok (db db' : DB) (rid : RoomId) (uid : UserId) (v : Vote)
    (h : addVote db rid uid v = (.ok (), db')) :
    ∃ s, Vote.value v = some s ∧
      ((∃ vr0, alookup db.votes uid = some vr0 ∧
          db' = { db with votes := updateKey db.votes uid (fun vr => { vr with vote := s }) }) ∨
       (alookup db.votes uid = none ∧
          db' = { db with votes := db.votes ++ [(uid, { room_id := rid, vote := s })] })) := by
  unfold addVote at h
  split at h
  · exact absurd h (by simp)
  · exact absurd h (by simp)
  · split at h
    · exact absurd h (by simp)
    · next s hs =>
      split at h
      · next vr0 hvr0 =>
        have hsnd := congrArg Prod.snd h
        exact ⟨s, hs, .inl ⟨vr0, hvr0, hsnd.symm⟩⟩
      · next hnone =>
        split at h
        · exact absurd h (by simp)
        · have hsnd := congrArg Prod.snd h
          exact ⟨s, hs, .inr ⟨hnone, hsnd.symm⟩⟩

/-- Updating only the token string of a vote row changes no row's room, so
per-room row counts are untouched. -/
theorem length_filter_updateKey_vote (l : List (UserId × VoteRow)) (k : Nat)
    (s : String) (r : Nat) :
    ((updateKey l k (fun vr => { vr with vote := s })).filter (fun p => p.2.room_id == r)).length
      = (l.filter (fun p => p.2.room_id == r)).length := by
  induction l with
  | nil => rfl
  | cons p rest ih =>
    obtain ⟨k', vr⟩ := p
    rw [updateKey_cons]
    by_cases hk : k' = k
    · rw [if_pos hk]
      by_cases hr : vr.room_id = r <;> simp [List.filter_cons, hr, ih]
    · rw [if_neg hk]
      by_cases hr : vr.room_id = r <;> simp [List.filter_cons, hr, ih]

/-- C5: a second `add_vote` for the same user succeeds as an upsert-update:
no room's vote-row count changes, and the stored row for the user afterwards
carries the latest submission's canonical string, which parses back to the
latest vote. -/
theorem C5_revote_overwrites (db db1 db2 : DB) (rid : RoomId) (uid : UserId)
    (v1 v2 : Vote)
    (h1 : addVote db rid uid v1 = (.ok (), db1))
    (h2 : addVote db1 rid uid v2 = (.ok (), db2)) :
    (∀ r, (votesRowsFor db2 r).length = (votesRowsFor db1 r).length) ∧
    ∃ s2, Vote.value v2 = some s2 ∧
      ∃ vr, alookup db2.votes uid = some vr ∧ vr.vote = s2 ∧
        voteFromString vr.vote = .ok v2 := by
  obtain ⟨s1, hs1, hcase1⟩ := addVote_ok db db1 rid uid v1 h1
  have hsome1 : ∃ vrA, alookup db1.votes uid = some vrA := by
    rcases hcase1 with ⟨vr0, hvr0, hdb1⟩ | ⟨hnone, hdb1⟩
    · subst hdb1
      refine ⟨{ vr0 with vote := s1 }, ?_⟩
      show alookup (updateKey db.votes uid (fun vr => { vr with vote := s1 })) uid
          = some { vr0 with vote := s1 }
      rw [alookup_updateKey_self, hvr0]
      rfl
    · subst hdb1
      refine ⟨{ room_id := rid, vote := s1 }, ?_⟩
      show alookup (db.votes ++ [(uid, { room_id := rid, vote := s1 })]) uid = _
      rw [alookup_append_none _ hnone, alookup_cons, if_pos rfl]
  obtain ⟨vrA, hvrA⟩ := hsome1
  obtain ⟨s2, hs2, hcase2⟩ := addVote_ok db1 db2 rid uid v2 h2
  rcases hcase2 with ⟨vr0', hvr0', hdb2⟩ | ⟨hnone', _⟩
  · subst hdb2
    constructor
    · intro r
      exact length_filter_updateKey_vote db1.votes uid s2 r
    · refine ⟨s2, hs2, { vr0' with vote := s2 }, ?_, rfl, voteFromString_value hs2⟩
      show alookup (updateKey db1.votes uid (fun vr => { vr with vote := s2 })) uid
          = some { vr0' with vote := s2 }
      rw [alookup_updateKey_self, hvr0']
      rfl
  · rw [hvrA] at hnone'
    exact absurd hnone' (by simp)

/-- Witness for C5: user 2 of `dbOwned` votes `8` and then re-votes `13`. -/
theorem C5_witness :
    (∀ r, (votesRowsFor (addVote (addVote dbOwned 0 2 .eight).2 0 2 .thirteen).2 r).length
        = (votesRowsFor (addVote dbOwned 0 2 .eight).2 r).length) ∧
    ∃ s2, Vote.value Vote.thirteen = some s2 ∧
      ∃ vr, alookup (addVote (addVote dbOwned 0 2 .eight).2 0 2 .thirteen).2.votes 2 = some vr ∧
        vr.vote = s2 ∧ voteFromString vr.vote = .ok .thirteen :=
  C5_revote_overwrites dbOwned (addVote dbOwned 0 2 .eight).2
    (addVote (addVote dbOwned 0 2 .eight).2 0 2 .thirteen).2 0 2 .eight .thirteen
    (by rfl) (by rfl)

/-! ## Output-store shapes of the request handlers

Each handler's resulting store is one of a small list of shapes; the
invariant-preservation proofs below proceed by cases on these. -/

/-- Rows that pass a filter keep their (first-match) binding when the bound
row itself satisfies the filter. -/
theorem alookup_filter_of_pred {α : Type} {l : List (Nat × α)} {k : Nat} {v : α}
    (q : Nat × α → Bool) (h : alookup l k = some v) (hq : q (k, v) = true) :
    alookup (l.filter q) k = some v := by
  induction l with
  | nil => simp [alookup] at h
  | cons p rest ih =>
    obtain ⟨k', v'⟩ := p
    rw [alookup_cons] at h
    by_cases hk : k' = k
    · rw [if_pos hk] at h
      injection h with h
      subst h
      subst hk
      rw [List.filter_cons, if_pos (by simpa using hq), alookup_cons, if_pos rfl]
    · rw [if_neg hk] at h
      rw [List.filter_cons]
      by_cases hqp : q (k', v')
      · rw [if_pos (by simpa using hqp), alookup_cons, if_neg hk]
        exact ih h
      · rw [if_neg (by simpa using hqp)]
        exact ih h

theorem removeUser_snd_cases (db : DB) (uid : UserId) :
    (removeUser db uid).2 = db ∨
    (removeUser db uid).2 =
      { rooms := db.rooms, users := eraseKey db.users uid, votes := eraseKey db.votes uid } := by
  unfold removeUser
  split
  · exact .inl rfl
  · exact .inr rfl

theorem removeUser_rooms (db : DB) (uid : UserId) :
    (removeUser db uid).2.rooms = db.rooms := by
  rcases removeUser_snd_cases db uid with h | h <;> rw [h]

theorem removeUser_votes_sub (db : DB) (uid : UserId) :
    ∀ p ∈ (removeUser db uid).2.votes, p ∈ db.votes := by
  rcases removeUser_snd_cases db uid with h | h <;> rw [h]
  · exact fun p hp => hp
  · exact fun p hp => List.mem_of_mem_filter hp

theorem leaveRoomRoute_snd_cases (db : DB) (r2 : RoomId) (uid : UserId) :
    (leaveRoomRoute db r2 uid).2 = (removeUser db uid).2 ∨
    (∃ room w, getRoom (removeUser db uid).2 r2 = .ok (some room) ∧ room.owner_id = some uid ∧
      (leaveRoomRoute db r2 uid).2 = updateRoomOwner (removeUser db uid).2 r2 (some w)) ∨
    (∃ room, getRoom (removeUser db uid).2 r2 = .ok (some room) ∧ room.owner_id = some uid ∧
      (leaveRoomRoute db r2 uid).2 = (deleteRoom (removeUser db uid).2 r2).2) := by
  rcases hrm : removeUser db uid with ⟨opt, db1⟩
  cases opt with
  | none =>
    simp only [leaveRoomRoute, hrm]
    exact .inl trivial
  | some pr =>
    obtain ⟨user, rB⟩ := pr
    simp only [leaveRoomRoute, hrm]
    split
    · exact .inl rfl
    · exact .inl rfl
    · next room heq =>
      split
      · next hO =>
        split
        · split
          · next first hfirst =>
            exact .inr (.inl ⟨room, first.1, heq, hO, rfl⟩)
          · exact .inl rfl
        · exact .inr (.inr ⟨room, heq, hO, rfl⟩)
      · exact .inl rfl

theorem addUser_snd_cases (db : DB) (u : UserRec) (rid : RoomId) :
    (addUser db u rid).2 = db ∨
    (addUser db u rid).2 =
      { db with users := db.users ++ [(u.id, { name := u.name, is_observer := u.is_observer, room_id := rid })] } := by
  unfold addUser
  split
  · exact .inl rfl
  · split
    · exact .inl rfl
    · exact .inr rfl

theorem joinRoomRoute_snd_cases (db : DB) (r2 : RoomId) (nuid : UserId)
    (name : String) (obs : Bool) :
    (joinRoomRoute db r2 nuid name obs).2 = db ∨
    (joinRoomRoute db r2 nuid name obs).2 =
      { db with users := db.users ++ [(nuid, { name := name, is_observer := obs, room_id := r2 })] } := by
  unfold joinRoomRoute
  split
  · exact .inl rfl
  · exact .inl rfl
  · rcases hadd : addUser db { id := nuid, name := name, is_observer := obs } r2 with ⟨res, db1⟩
    have := addUser_snd_cases db { id := nuid, name := name, is_observer := obs } r2
    rw [hadd] at this
    cases res with
    | error e => simp only [hadd]; exact this
    | ok _ => simp only [hadd]; exact this

theorem addUsersList_snd_single (db : DB) (u : UserId) (rec : UserRec) (rid : RoomId) :
    (addUsersList db [(u, rec)] rid).2 = db ∨
    (addUsersList db [(u, rec)] rid).2 =
      { db with users := db.users ++ [(rec.id, { name := rec.name, is_observer := rec.is_observer, room_id := rid })] } := by
  simp only [addUsersList]
  split
  · next e db1 heq =>
    have hshape := addUser_snd_cases db rec rid
    rw [heq] at hshape
    simpa using hshape
  · next a db1 heq =>
    have hshape := addUser_snd_cases db rec rid
    rw [heq] at hshape
    simpa [addUsersList] using hshape

theorem createRoomRoute_snd_cases (db : DB) (rid2 : RoomId) (name : String)
    (c : Option (UserId × String)) :
    (createRoomRoute db rid2 name c).2 = db ∨
    (∃ row2, (createRoomRoute db rid2 name c).2 = { db with rooms := db.rooms ++ [(rid2, row2)] }) ∨
    (∃ row2 cuid urow, (createRoomRoute db rid2 name c).2 =
      { rooms := db.rooms ++ [(rid2, row2)], users := db.users ++ [(cuid, urow)], votes := db.votes }) := by
  have hsnd : (createRoomRoute db rid2 name c).2 =
      (dbCreateRoom db (roomNew rid2 name (c.map (fun x => ({ id := x.1, name := x.2, is_observer := false } : UserRec))))).2 := by
    rcases hq : dbCreateRoom db (roomNew rid2 name (c.map (fun x => ({ id := x.1, name := x.2, is_observer := false } : UserRec)))) with ⟨res, db1⟩
    cases res <;> simp [createRoomRoute, hq]
  rw [hsnd]
  cases c with
  | none =>
    simp only [Option.map_none', dbCreateRoom, roomNew]
    split
    · exact .inl rfl
    · exact .inr (.inl ⟨_, rfl⟩)
  | some cpair =>
    obtain ⟨cuid, cname⟩ := cpair
    simp only [Option.map_some', dbCreateRoom, roomNew]
    split
    · exact .inl rfl
    · rcases addUsersList_snd_single
          { db with rooms := db.rooms ++ [(rid2, { name := name, state := RoomState.voting, owner_id := some cuid })] }
          cuid { id := cuid, name := cname, is_observer := false } rid2 with h | h
      · exact .inr (.inl ⟨_, by rw [h]⟩)
      · exact .inr (.inr ⟨_, _, _, by rw [h]⟩)

theorem addVote_snd_cases (db : DB) (r2 : RoomId) (uid : UserId) (v : Vote) :
    (addVote db r2 uid v).2 = db ∨
    ∃ s, Vote.value v = some s ∧
      ((addVote db r2 uid v).2 = { db with votes := updateKey db.votes uid (fun vr => { vr with vote := s }) } ∨
       (alookup db.votes uid = none ∧ (alookup db.users uid).isSome ∧
        (addVote db r2 uid v).2 = { db with votes := db.votes ++ [(uid, { room_id := r2, vote := s })] })) := by
  unfold addVote
  split
  · exact .inl rfl
  · exact .inl rfl
  · split
    · exact .inl rfl
    · next s hs =>
      split
      · exact .inr ⟨s, hs, .inl rfl⟩
      · next hnone =>
        split
        · exact .inl rfl
        · next husr =>
          refine .inr ⟨s, hs, .inr ⟨hnone, ?_, rfl⟩⟩
          cases hcase : alookup db.users uid with
          | none => exact absurd (by simp [hcase]) husr
          | some _ => simp [hcase]

theorem submitVoteRoute_snd_cases (db : DB) (r2 : RoomId) (uid : UserId) (tok : String) :
    (submitVoteRoute db r2 uid tok).2 = db ∨
    ∃ v, (submitVoteRoute db r2 uid tok).2 = (addVote db r2 uid v).2 := by
  unfold submitVoteRoute
  split
  · exact .inl rfl
  · next v _ => exact .inr ⟨v, rfl⟩

theorem dbRevealVotes_snd_cases (db : DB) (r2 : RoomId) (uid : UserId) :
    (dbRevealVotes db r2 uid).2 = db ∨
    (dbRevealVotes db r2 uid).2 = updateRoomState db r2 .revealed := by
  unfold dbRevealVotes
  split
  · exact .inl rfl
  · exact .inl rfl
  · split
    · exact .inr rfl
    · exact .inl rfl

theorem revealVotesRoute_snd (db : DB) (r2 : RoomId) (uid : UserId) :
    (revealVotesRoute db r2 uid).2 = (dbRevealVotes db r2 uid).2 := by
  unfold revealVotesRoute
  split
  · next e db1 heq => rw [heq]
  · next u db1 heq =>
    split
    · rw [heq]
    · rw [heq]
    · rw [heq]

theorem dbResetVotes_snd_cases (db : DB) (r2 : RoomId) (uid : UserId) :
    (dbResetVotes db r2 uid).2 = db ∨
    (dbResetVotes db r2 uid).2 = resetVotesForRoom db r2 := by
  unfold dbResetVotes
  split
  · exact .inl rfl
  · exact .inl rfl
  · split
    · exact .inr rfl
    · exact .inl rfl

/-- Every request handler leaves the store's vote strings parseable: the
only writes to the `vote` column store canonical token strings. -/
theorem votesParse_applyOp (db : DB) (op : Op) (h : VotesParse db) :
    VotesParse (applyOp db op) := by
  cases op with
  | create rid2 name c =>
    show VotesParse (createRoomRoute db rid2 name c).2
    rcases createRoomRoute_snd_cases db rid2 name c with hc | ⟨row2, hc⟩ | ⟨row2, cuid, urow, hc⟩ <;>
      rw [hc] <;> exact fun p hp => h p hp
  | join rid2 nuid name obs =>
    show VotesParse (joinRoomRoute db rid2 nuid name obs).2
    rcases joinRoomRoute_snd_cases db rid2 nuid name obs with hc | hc <;> rw [hc] <;>
      exact fun p hp => h p hp
  | leave rid2 uid =>
    show VotesParse (leaveRoomRoute db rid2 uid).2
    rcases leaveRoomRoute_snd_cases db rid2 uid with hc | ⟨room, w, _, _, hc⟩ | ⟨room, _, _, hc⟩ <;>
      rw [hc]
    · exact votesParse_sub h (removeUser_votes_sub db uid)
    · exact votesParse_sub h (removeUser_votes_sub db uid)
    · exact votesParse_sub h
        (fun p hp => removeUser_votes_sub db uid p (List.mem_of_mem_filter hp))
  | vote rid2 uid tok =>
    show VotesParse (submitVoteRoute db rid2 uid tok).2
    rcases submitVoteRoute_snd_cases db rid2 uid tok with hc | ⟨v, hc⟩
    · rw [hc]; exact h
    · rw [hc]
      rcases addVote_snd_cases db rid2 uid v with ha | ⟨s, hs, ha | ⟨_, _, ha⟩⟩ <;> rw [ha]
      · exact h
      · intro p hp
        obtain ⟨q, hq, hpq⟩ := List.mem_map.mp hp
        by_cases hqu : q.1 = uid
        · rw [if_pos (by simpa using hqu)] at hpq
          subst hpq
          exact ⟨v, voteFromString_value hs⟩
        · rw [if_neg (by simpa using hqu)] at hpq
          subst hpq
          exact h q hq
      · intro p hp
        rcases List.mem_append.mp hp with hp | hp
        · exact h p hp
        · rw [List.mem_singleton] at hp
          subst hp
          exact ⟨v, voteFromString_value hs⟩
  | reveal rid2 uid =>
    show VotesParse (revealVotesRoute db rid2 uid).2
    rw [revealVotesRoute_snd]
    rcases dbRevealVotes_snd_cases db rid2 uid with hc | hc <;> rw [hc]
    · exact h
    · exact fun p hp => h p hp
  | reset rid2 uid =>
    show VotesParse (dbResetVotes db rid2 uid).2
    rcases dbResetVotes_snd_cases db rid2 uid with hc | hc <;> rw [hc]
    · exact h
    · exact votesParse_sub h (fun p hp => List.mem_of_mem_filter hp)

/-- No request handler ever sets an owner on a room whose `owner_id` is
`none`: owner reassignment in `leave_room` only fires when the stored owner
equals the departing user (never true for `none`), `update_room_state`
touches only the state column, and room deletion in `leave_room` is also
guarded by that same owner check. -/
theorem ownerNone_applyOp (db : DB) (op : Op) (rid : RoomId) (row : RoomRow)
    (hrow : alookup db.rooms rid = some row) (hown : row.owner_id = none) :
    ∃ row', alookup (applyOp db op).rooms rid = some row' ∧ row'.owner_id = none := by
  cases op with
  | create rid2 name c =>
    show ∃ row', alookup (createRoomRoute db rid2 name c).2.rooms rid = some row' ∧ _
    rcases createRoomRoute_snd_cases db rid2 name c with hc | ⟨row2, hc⟩ | ⟨row2, cuid, urow, hc⟩ <;>
      rw [hc]
    · exact ⟨row, hrow, hown⟩
    · exact ⟨row, alookup_append_some _ hrow, hown⟩
    · exact ⟨row, alookup_append_some _ hrow, hown⟩
  | join rid2 nuid name obs =>
    show ∃ row', alookup (joinRoomRoute db rid2 nuid name obs).2.rooms rid = some row' ∧ _
    rcases joinRoomRoute_snd_cases db rid2 nuid name obs with hc | hc <;> rw [hc] <;>
      exact ⟨row, hrow, hown⟩
  | vote rid2 uid tok =>
    show ∃ row', alookup (submitVoteRoute db rid2 uid tok).2.rooms rid = some row' ∧ _
    rcases submitVoteRoute_snd_cases db rid2 uid tok with hc | ⟨v, hc⟩ <;> rw [hc]
    · exact ⟨row, hrow, hown⟩
    · rcases addVote_snd_cases db rid2 uid v with ha | ⟨s, _, ha | ⟨_, _, ha⟩⟩ <;> rw [ha] <;>
        exact ⟨row, hrow, hown⟩
  | reveal rid2 uid =>
    show ∃ row', alookup (revealVotesRoute db rid2 uid).2.rooms rid = some row' ∧ _
    rw [revealVotesRoute_snd]
    rcases dbRevealVotes_snd_cases db rid2 uid with hc | hc <;> rw [hc]
    · exact ⟨row, hrow, hown⟩
    · by_cases hr2 : rid2 = rid
      · subst hr2
        refine ⟨{ row with state := .revealed }, ?_, hown⟩
        show alookup (updateKey db.rooms rid2 (fun r => { r with state := RoomState.revealed })) rid2 = _
        rw [alookup_updateKey_self, hrow]
        rfl
      · refine ⟨row, ?_, hown⟩
        show alookup (updateKey db.rooms rid2 (fun r => { r with state := RoomState.revealed })) rid = _
        rw [alookup_updateKey_ne _ (fun e => hr2 e.symm)]
        exact hrow
  | reset rid2 uid =>
    show ∃ row', alookup (dbResetVotes db rid2 uid).2.rooms rid = some row' ∧ _
    rcases dbResetVotes_snd_cases db rid2 uid with hc | hc <;> rw [hc]
    · exact ⟨row, hrow, hown⟩
    · by_cases hr2 : rid2 = rid
      · subst hr2
        refine ⟨{ row with state := .voting }, ?_, hown⟩
        show alookup (updateKey db.rooms rid2 (fun r => { r with state := RoomState.voting })) rid2 = _
        rw [alookup_updateKey_self, hrow]
        rfl
      · refine ⟨row, ?_, hown⟩
        show alookup (updateKey db.rooms rid2 (fun r => { r with state := RoomState.voting })) rid = _
        rw [alookup_updateKey_ne _ (fun e => hr2 e.symm)]
        exact hrow
  | leave rid2 uid =>
    show ∃ row', alookup (leaveRoomRoute db rid2 uid).2.rooms rid = some row' ∧ _
    have hX : alookup (removeUser db uid).2.rooms rid = some row := by
      rw [removeUser_rooms]
      exact hrow
    rcases leaveRoomRoute_snd_cases db rid2 uid with hc | ⟨room, w, hgr, hO, hc⟩ | ⟨room, hgr, hO, hc⟩ <;>
      rw [hc]
    · exact ⟨row, hX, hown⟩
    · by_cases hr2 : rid2 = rid
      · exfalso
        subst hr2
        have hrr := getRoom_ok_room hgr
        rw [hX] at hrr
        injection hrr with hrr
        have : row.owner_id = room.owner_id := congrArg RoomRow.owner_id hrr
        rw [hown] at this
        rw [← this] at hO
        exact absurd hO (by simp)
      · refine ⟨row, ?_, hown⟩
        show alookup (updateKey (removeUser db uid).2.rooms rid2 (fun r => { r with owner_id := some w })) rid = _
        rw [alookup_updateKey_ne _ (fun e => hr2 e.symm)]
        exact hX
    · by_cases hr2 : rid2 = rid
      · exfalso
        subst hr2
        have hrr := getRoom_ok_room hgr
        rw [hX] at hrr
        injection hrr with hrr
        have : row.owner_id = room.owner_id := congrArg RoomRow.owner_id hrr
        rw [hown] at this
        rw [← this] at hO
        exact absurd hO (by simp)
      · refine ⟨row, ?_, hown⟩
        show alookup (eraseKey (removeUser db uid).2.rooms rid2) rid = _
        rw [alookup_eraseKey_ne (fun e => hr2 e.symm)]
        exact hX

/-- C10: a room created without a creator name has `owner_id = none` at
creation, and no sequence of subsequent operations (join, leave, vote,
reveal, reset — creates of other rooms included) ever assigns an owner, so
reveal and reset on that room fail with `Forbidden` for every user id, with
the store unchanged. -/
theorem C10_ownerless_room_forbidden (db0 db : DB) (rid : RoomId) (name : String)
    (room : Room) (ops : List Op)
    (hcreate : createRoomRoute db0 rid name none = (.ok room, db))
    (hparse0 : VotesParse db0) :
    room.owner_id = none ∧
    ∃ row', alookup (applyOps db ops).rooms rid = some row' ∧ row'.owner_id = none ∧
      (∀ uid, dbRevealVotes (applyOps db ops) rid uid =
        (.error (.forbidden "Only the room owner can reveal votes"), applyOps db ops)) ∧
      (∀ uid, dbResetVotes (applyOps db ops) rid uid =
        (.error (.forbidden "Only the room owner can reset votes"), applyOps db ops)) := by
  -- unpack the creation: the built room has no owner and the store gains
  -- exactly the new room row
  have hroom0 : room = roomNew rid name none ∧ db =
      { db0 with rooms := db0.rooms ++ [(rid, { name := name, state := .voting, owner_id := none })] } ∧
      alookup db0.rooms rid = none := by
    simp only [createRoomRoute, Option.map_none'] at hcreate
    split at hcreate
    · exact absurd hcreate (by simp)
    · next res db1 heq =>
      simp only [dbCreateRoom, roomNew] at heq
      split at heq
      · exact absurd heq (by simp)
      · next hns =>
        simp only [addUsersList] at heq
        injection hcreate with hc1 hc2
        injection heq with _ heq2
        injection hc1 with hc1
        refine ⟨hc1.symm, ?_, ?_⟩
        · rw [← hc2, ← heq2]
          rfl
        · cases hn : alookup db0.rooms rid with
          | none => rfl
          | some r => exact absurd (by simp [hn]) hns
  obtain ⟨hroomEq, hdbEq, hfresh⟩ := hroom0
  have hrowInit : alookup db.rooms rid =
      some { name := name, state := .voting, owner_id := none } := by
    rw [hdbEq]
    show alookup (db0.rooms ++ [(rid, { name := name, state := RoomState.voting, owner_id := none })]) rid = _
    rw [alookup_append_none _ hfresh, alookup_cons, if_pos rfl]
  have hparse : VotesParse db := by
    rw [hdbEq]
    exact fun p hp => hparse0 p hp
  have main : ∀ (l : List Op) (d : DB),
      (∃ row', alookup d.rooms rid = some row' ∧ row'.owner_id = none) → VotesParse d →
      ∃ row', alookup (applyOps d l).rooms rid = some row' ∧ row'.owner_id = none ∧
        VotesParse (applyOps d l) := by
    intro l
    induction l with
    | nil =>
      intro d hP hQ
      obtain ⟨row', h1, h2⟩ := hP
      exact ⟨row', h1, h2, hQ⟩
    | cons op rest ih =>
      intro d hP hQ
      obtain ⟨row', h1, h2⟩ := hP
      exact ih (applyOp d op) (ownerNone_applyOp d op rid row' h1 h2)
        (votesParse_applyOp d op hQ)
  obtain ⟨row', h1, h2, hQ⟩ :=
    main ops db ⟨{ name := name, state := .voting, owner_id := none }, hrowInit, rfl⟩ hparse
  obtain ⟨votesF, _, hgetF⟩ := getRoom_some h1 hQ
  refine ⟨by rw [hroomEq]; rfl, row', h1, h2, ?_, ?_⟩
  · intro uid
    simp only [dbRevealVotes, hgetF]
    simp [h2]
  · intro uid
    simp only [dbResetVotes, hgetF]
    simp [h2]

/-- Witness for C10: create an ownerless room in an empty store, run a join,
a vote and a reveal attempt; the room still has no owner and reveal/reset
stay forbidden. -/
theorem C10_witness :
    (roomNew 0 "r" none).owner_id = none ∧
    ∃ row', alookup (applyOps (createRoomRoute { rooms := [], users := [], votes := [] } 0 "r" none).2
        [.join 0 1 "a" false, .vote 0 1 "5", .reveal 0 1]).rooms 0 = some row' ∧
      row'.owner_id = none ∧
      (∀ uid, dbRevealVotes (applyOps (createRoomRoute { rooms := [], users := [], votes := [] } 0 "r" none).2
          [.join 0 1 "a" false, .vote 0 1 "5", .reveal 0 1]) 0 uid =
        (.error (.forbidden "Only the room owner can reveal votes"),
         applyOps (createRoomRoute { rooms := [], users := [], votes := [] } 0 "r" none).2
          [.join 0 1 "a" false, .vote 0 1 "5", .reveal 0 1])) ∧
      (∀ uid, dbResetVotes (applyOps (createRoomRoute { rooms := [], users := [], votes := [] } 0 "r" none).2
          [.join 0 1 "a" false, .vote 0 1 "5", .reveal 0 1]) 0 uid =
        (.error (.forbidden "Only the room owner can reset votes"),
         applyOps (createRoomRoute { rooms := [], users := [], votes := [] } 0 "r" none).2
          [.join 0 1 "a" false, .vote 0 1 "5", .reveal 0 1])) :=
  C10_ownerless_room_forbidden { rooms := [], users := [], votes := [] }
    (createRoomRoute { rooms := [], users := [], votes := [] } 0 "r" none).2 0 "r"
    (roomNew 0 "r" none) [.join 0 1 "a" false, .vote 0 1 "5", .reveal 0 1]
    (by rfl) (by intro p hp; simp at hp)

/-- C7 amended: the per-room subset invariant (vote-map keys ⊆ user-map
keys) is preserved by create, join, leave, reveal and reset unconditionally,
and by submit-vote provided the voter either already has a vote row or is a
member of the room named in the request.  (Without that proviso the
invariant can break: see the counterexample, where a member of another room
votes and the insert passes both foreign keys.) -/
theorem C7_votes_subset_users_preserved (db : DB) (op : Op)
    (hinv : RoomVotesSubUsers db) (hcond : opVoteCond db op) :
    RoomVotesSubUsers (applyOp db op) := by
  cases op with
  | create rid2 name c =>
    show RoomVotesSubUsers (createRoomRoute db rid2 name c).2
    rcases createRoomRoute_snd_cases db rid2 name c with hc | ⟨row2, hc⟩ | ⟨row2, cuid, urow, hc⟩ <;>
      rw [hc]
    · exact hinv
    · exact hinv
    · intro p hp
      obtain ⟨ur, hur, hroom⟩ := hinv p hp
      exact ⟨ur, alookup_append_some _ hur, hroom⟩
  | join rid2 nuid name obs =>
    show RoomVotesSubUsers (joinRoomRoute db rid2 nuid name obs).2
    rcases joinRoomRoute_snd_cases db rid2 nuid name obs with hc | hc <;> rw [hc]
    · exact hinv
    · intro p hp
      obtain ⟨ur, hur, hroom⟩ := hinv p hp
      exact ⟨ur, alookup_append_some _ hur, hroom⟩
  | leave rid2 uid =>
    show RoomVotesSubUsers (leaveRoomRoute db rid2 uid).2
    have hX : RoomVotesSubUsers (removeUser db uid).2 := by
      rcases removeUser_snd_cases db uid with hr | hr <;> rw [hr]
      · exact hinv
      · intro p hp
        have hpne : p.1 ≠ uid := ne_of_mem_eraseKey hp
        obtain ⟨ur, hur, hroom⟩ := hinv p (List.mem_of_mem_filter hp)
        exact ⟨ur, by rw [alookup_eraseKey_ne hpne]; exact hur, hroom⟩
    rcases leaveRoomRoute_snd_cases db rid2 uid with hc | ⟨room, w, _, _, hc⟩ | ⟨room, _, _, hc⟩ <;>
      rw [hc]
    · exact hX
    · exact hX
    · intro p hp
      have hxp : p ∈ (removeUser db uid).2.votes := List.mem_of_mem_filter hp
      have hpred := (List.mem_filter.mp hp).2
      obtain ⟨ur, hur, hroom⟩ := hX p hxp
      have hnr : ¬(p.2.room_id = rid2) := by
        intro he
        simp [he] at hpred
      exact ⟨ur, alookup_filter_of_pred _ hur (by simp [hroom, hnr]), hroom⟩
  | vote rid2 uid tok =>
    simp only [opVoteCond] at hcond
    show RoomVotesSubUsers (submitVoteRoute db rid2 uid tok).2
    rcases submitVoteRoute_snd_cases db rid2 uid tok with hc | ⟨v, hc⟩ <;> rw [hc]
    · exact hinv
    · rcases addVote_snd_cases db rid2 uid v with ha | ⟨s, hs, ha | ⟨hnone, husr, ha⟩⟩ <;> rw [ha]
      · exact hinv
      · intro p hp
        obtain ⟨q, hq, hpq⟩ := List.mem_map.mp hp
        by_cases hqu : q.1 = uid
        · rw [if_pos (by simpa using hqu)] at hpq
          obtain ⟨ur, hur, hroom⟩ := hinv q hq
          subst hpq
          exact ⟨ur, hur, hroom⟩
        · rw [if_neg (by simpa using hqu)] at hpq
          subst hpq
          exact hinv q hq
      · intro p hp
        rcases List.mem_append.mp hp with hp | hp
        · exact hinv p hp
        · rw [List.mem_singleton] at hp
          subst hp
          rcases hcond with hcond | ⟨ur, hur, hroom⟩
          · rw [hnone] at hcond
            exact absurd hcond (by simp)
          · exact ⟨ur, hur, hroom⟩
  | reveal rid2 uid =>
    show RoomVotesSubUsers (revealVotesRoute db rid2 uid).2
    rw [revealVotesRoute_snd]
    rcases dbRevealVotes_snd_cases db rid2 uid with hc | hc <;> rw [hc]
    · exact hinv
    · exact hinv
  | reset rid2 uid =>
    show RoomVotesSubUsers (dbResetVotes db rid2 uid).2
    rcases dbResetVotes_snd_cases db rid2 uid with hc | hc <;> rw [hc]
    · exact hinv
    · intro p hp
      exact hinv p (List.mem_of_mem_filter hp)

/-- Witness for C7: user 2, a member of room 0, submits a fresh vote in
room 0 of `dbOwned`; the subset invariant holds afterwards. -/
theorem C7_witness :
    RoomVotesSubUsers (applyOp dbOwned (.vote 0 2 "8")) :=
  C7_votes_subset_users_preserved dbOwned (.vote 0 2 "8")
    (by intro p hp
        simp only [dbOwned, List.mem_singleton] at hp
        subst hp
        exact ⟨{ name := "a", is_observer := false, room_id := 0 }, rfl, rfl⟩)
    (Or.inr ⟨{ name := "b", is_observer := false, room_id := 0 }, rfl, rfl⟩)

end PointingPoker
